import Mathlib

/-!
# Verification of the confix configuration pipeline

A shallow embedding of the Go package `confix` (files `confix.go` and
`options.go`): path discovery, ordered multi-file decode-merge, and
write-back with per-target error aggregation.

Modelling choices:

* The filesystem is a map `String → Option Entry`.  `none` models the
  not-found condition of `os.Stat`/`os.Open`; `Entry.statErr` models a path
  whose probe fails with a filesystem error other than not-found (e.g. a
  permission error); `Entry.dir` is a directory; `Entry.file c` a regular
  file with content `c`.
* File contents and the caller's record are modelled at the granularity the
  external codec libraries expose to this package: a content is zero bytes
  (`Content.empty`), a well-formed document assigning string fields
  (`Content.fields`), or a document the selected decoder rejects
  (`Content.malformed`).  Decoding overlays the assigned fields onto the
  record, leaving other fields untouched (the merge semantics of decoding
  into an already-populated struct); encoding a record produces
  `Content.fields` of its bindings.  The codecs themselves are external
  collaborators of the package.
* Behaviour of the environment that the Go code obtains through `os`
  (success of `os.Create`, `os.CreateTemp`, `os.Rename`, and the encoder's
  own I/O) is abstracted into boolean oracles carried by `Env`, so that
  every failure path of the code is reachable in the model.
* `Env.executablePath` is the value of the package-level
  `currentDir, _ = os.Executable()` — the path of the running executable
  itself (not a directory); the embedding keeps the code's use of it as-is.
* Goroutine fan-out in `writeToFiles` is modelled deterministically: each
  target's error is computed independently (it depends only on that
  target's write oracle and extension, mirroring the code where each
  goroutine reads the shared record and touches only its own temp file and
  target), and the filesystem effects of the writes are applied in list
  order.
-/

namespace Confix

/-- Supported configuration formats (selected by file extension). -/
inductive Fmt
  | json
  | yaml
  | toml
deriving DecidableEq, Repr

/-- The name of a format as it appears in the Go error messages
`"error while decoding <fmt> file"`. -/
def fmtName : Fmt → String
  | .json => "json"
  | .yaml => "yaml"
  | .toml => "toml"

/-- Errors the pipeline can return.  `openErr` is a non-not-found error from
`os.Open`; `decodeErr` the wrapped decoder failure; `unsupportedExt` the
`"unsupported file extension"` error; `createErr` an `os.Create` failure;
`tempErr` an `os.CreateTemp` failure; `encodeErr` a failure of the external
encoder; `userErr` an error returned by a caller-supplied validator. -/
inductive Err
  | openErr (p : String)
  | decodeErr (fmt : Fmt)
  | unsupportedExt (ext : String)
  | createErr (p : String)
  | tempErr
  | encodeErr
  | userErr (msg : String)
deriving DecidableEq, Repr

/-- The message text of an error, following the format strings in the Go
source (`fmt.Errorf("error while decoding json file: %w", err)` etc.). -/
def errMsg : Err → String
  | .openErr p => "open " ++ p
  | .decodeErr fmt => "error while decoding " ++ fmtName fmt ++ " file"
  | .unsupportedExt ext => "unsupported file extension: " ++ ext
  | .createErr p => "create " ++ p
  | .tempErr => "createtemp"
  | .encodeErr => "encode"
  | .userErr msg => msg

/-- The caller's record: a finite assignment of string fields.  The Go code
is generic over the record type and delegates all field mapping to the
codec libraries; field-level granularity is what the merge semantics of
those libraries act on. -/
def Record := List (String × String)
deriving DecidableEq, Repr

/-- Set (or add) one field of a record, keeping the other fields. -/
def setField : Record → String → String → Record
  | [], k, v => [(k, v)]
  | (k', v') :: rest, k, v =>
      if k' = k then (k, v) :: rest else (k', v') :: setField rest k v

/-- Read one field of a record (empty string when absent, the zero value of
a Go string field). -/
def getField (r : Record) (k : String) : String :=
  (r.lookup k).getD ""

/-- The content of a regular file, at the granularity the codecs expose:
zero bytes, a well-formed document assigning fields, or a document the
decoder selected for this file rejects. -/
inductive Content
  | empty
  | fields (l : List (String × String))
  | malformed
deriving DecidableEq, Repr

/-- A filesystem entry: a regular file, a directory, or a path whose
stat/open fails with an error other than not-found. -/
inductive Entry
  | file (c : Content)
  | dir
  | statErr
deriving DecidableEq, Repr

/-- The filesystem: `none` is the not-found condition. -/
def FS := String → Option Entry

/-- Point update of a filesystem. -/
def FS.update (fs : FS) (p : String) (v : Option Entry) : FS :=
  fun q => if q = p then v else fs q

/-- Decoding a well-formed document into a record: overlay exactly the
fields the document assigns, in document order, leaving every other field
at its previous value (the behaviour of the JSON/YAML/TOML decoders when
decoding into an already-populated struct). -/
def decodeMerge (l : List (String × String)) (r : Record) : Record :=
  l.foldl (fun acc kv => setField acc kv.1 kv.2) r

/-- Encoding a record for write-back: the document assigning exactly the
record's bindings. -/
def encodeRecord (r : Record) : Content :=
  Content.fields r

/-- `path.Ext`: the suffix beginning at the final dot in the final
slash-separated element; empty when that element has no dot. -/
def pathExtAux : Option (List Char) → List Char → Option (List Char)
  | cur, [] => cur
  | _, '/' :: rest => pathExtAux none rest
  | _, '.' :: rest => pathExtAux (some ['.']) rest
  | none, _ :: rest => pathExtAux none rest
  | some l, c :: rest => pathExtAux (some (l ++ [c])) rest

/-- `path.Ext` over strings. -/
def pathExt (p : String) : String :=
  match pathExtAux none p.toList with
  | none => ""
  | some l => String.mk l

/-- The format selected for an extension, if supported: `.json` → JSON,
`.yaml`/`.yml` → YAML, `.toml` → TOML. -/
def extFmt : String → Option Fmt
  | ".json" => some Fmt.json
  | ".yaml" => some Fmt.yaml
  | ".yml" => some Fmt.yaml
  | ".toml" => some Fmt.toml
  | _ => none

/-- `path.Join` of a directory and a basename (for the clean, slash-free
directory strings the resolver joins against; `path.Join("", n) = n`). -/
def pathJoin (d n : String) : String :=
  if d = "" then n else d ++ "/" ++ n

/-- The four default basenames, exact strings of the Go constants. -/
def jsonConfigFileName : String := "config.json"
def tomlConfigFileName : String := "config.toml"
def yamlConfigFileName : String := "config.yaml"
def ymlConfigFileName : String := "config.yml"

/-- `fileExists`: `f, err := os.Stat(path); return err == nil && !f.IsDir()`.
Any stat failure — not-found or otherwise — yields `false`. -/
def fileExists (fs : FS) (p : String) : Bool :=
  match fs p with
  | some (Entry.file _) => true
  | _ => false

/-- `getExistingPaths`: keep, in order, the paths for which `fileExists`
holds. -/
def getExistingPaths (fs : FS) : List String → List String
  | [] => []
  | p :: rest =>
      if fileExists fs p then p :: getExistingPaths fs rest
      else getExistingPaths fs rest

/-- Per-target behaviour of the external environment during one
`writeToFile` call: whether `os.CreateTemp` succeeds, the name it returns,
whether the external encoder's own I/O succeeds, and whether `os.Rename`
onto the target succeeds. -/
structure WCfg where
  tempOk : Bool
  tempName : String
  encodeOk : Bool
  renameOk : Bool

/-- The ambient environment of one initialization call: the two discovery
environment variables (`""` = unset), the package-level `currentDir`
(the value of `os.Executable()` — the executable's own path), whether
`os.Create` succeeds for a missing explicit file, and the per-target write
oracles. -/
structure Env where
  configPath : String
  configDir : String
  executablePath : String
  createOk : Bool
  w : String → WCfg

/-- `writeToFile`: create a temp file carrying the target's extension,
encode the record into it (`encodeToFile` selects the encoder from the
extension and fails on an unsupported one), rename it onto the target —
a rename failure is logged and swallowed (`return nil`) — and on every
exit path after the temp file was created, the deferred
`os.Remove(f.Name())` removes it. -/
def writeToFile (w : WCfg) (r : Record) (fPath : String) (fs : FS) :
    Except Err Unit × FS :=
  if w.tempOk = false then
    (Except.error Err.tempErr, fs)
  else
    let fs₁ := fs.update w.tempName (some (Entry.file Content.empty))
    match extFmt (pathExt fPath) with
    | none =>
        (Except.error (Err.unsupportedExt (pathExt fPath)),
         fs₁.update w.tempName none)
    | some _ =>
        if w.encodeOk = false then
          (Except.error Err.encodeErr, fs₁.update w.tempName none)
        else
          let fs₂ := fs₁.update w.tempName (some (Entry.file (encodeRecord r)))
          if w.renameOk = false then
            (Except.ok (), fs₂.update w.tempName none)
          else
            (Except.ok (),
             (fs₂.update fPath (some (Entry.file (encodeRecord r)))).update
               w.tempName none)

/-- `writeToFiles`: fan out one `writeToFile` per resolved path, wait for
all of them, collect every per-path error from the channel and fold them
with `errors.Join`.  The aggregate is modelled as the list of per-path
errors (empty list = `nil` aggregate); each path's error depends only on
that path (the record is read-only and each goroutine touches only its own
temp file and target), and the filesystem effects are applied in list
order. -/
def writeToFiles (e : Env) (r : Record) (paths : List String) (fs : FS) :
    List Err × FS :=
  (paths.filterMap fun p =>
      match (writeToFile (e.w p) r p fs).1 with
      | Except.error err => some err
      | Except.ok _ => none,
   paths.foldl (fun acc p => (writeToFile (e.w p) r p acc).2) fs)

/-- `setConfigPathForOneFile`: when the explicit file exists, the resolved
list is `[configPath]`; otherwise the file is created (`os.Create`), then
populated through `writeToFile`, and — as in the source — the `paths`
field is left at its initial empty value. -/
def setConfigPathForOneFile (e : Env) (r : Record) (configPath : String)
    (fs : FS) : Except Err (List String) × FS :=
  if fileExists fs configPath then
    (Except.ok [configPath], fs)
  else if e.createOk = false then
    (Except.error (Err.createErr configPath), fs)
  else
    let fs₁ := fs.update configPath (some (Entry.file Content.empty))
    match writeToFile (e.w configPath) r configPath fs₁ with
    | (Except.error err, fs₂) => (Except.error err, fs₂)
    | (Except.ok _, fs₂) => (Except.ok [], fs₂)

/-- `getConfigPaths`: explicit file beats directory beats default search.
The directory branch probes `config.json`, `config.toml`, `config.yml`,
`config.yaml` under the directory; the default branch probes the four
basenames joined against `currentDir` (in the order toml, json, yml, yaml)
followed by the four bare basenames. -/
def getConfigPaths (e : Env) (r : Record) (fs : FS) :
    Except Err (List String) × FS :=
  if e.configPath ≠ "" then
    setConfigPathForOneFile e r e.configPath fs
  else if e.configDir ≠ "" then
    (Except.ok (getExistingPaths fs
      [pathJoin e.configDir jsonConfigFileName,
       pathJoin e.configDir tomlConfigFileName,
       pathJoin e.configDir ymlConfigFileName,
       pathJoin e.configDir yamlConfigFileName]), fs)
  else
    (Except.ok (getExistingPaths fs
      [pathJoin e.executablePath tomlConfigFileName,
       pathJoin e.executablePath jsonConfigFileName,
       pathJoin e.executablePath ymlConfigFileName,
       pathJoin e.executablePath yamlConfigFileName,
       tomlConfigFileName,
       jsonConfigFileName,
       ymlConfigFileName,
       yamlConfigFileName]), fs)

/-- `processPath`: open the file (not-found → skip; any other open failure
→ propagate); skip a zero-byte file before looking at the extension;
otherwise select the decoder from the extension (unsupported → error) and
decode-merge, wrapping a decoder failure with the format name.  Opening a
directory succeeds and its stat size is nonzero, so a directory reaches the
extension switch and fails either in the decoder's read or as an
unsupported extension. -/
def processPath (fs : FS) (p : String) (r : Record) : Except Err Record :=
  match fs p with
  | none => Except.ok r
  | some Entry.statErr => Except.error (Err.openErr p)
  | some Entry.dir =>
      match extFmt (pathExt p) with
      | some fmt => Except.error (Err.decodeErr fmt)
      | none => Except.error (Err.unsupportedExt (pathExt p))
  | some (Entry.file c) =>
      match c with
      | Content.empty => Except.ok r
      | Content.fields l =>
          match extFmt (pathExt p) with
          | some _ => Except.ok (decodeMerge l r)
          | none => Except.error (Err.unsupportedExt (pathExt p))
      | Content.malformed =>
          match extFmt (pathExt p) with
          | some fmt => Except.error (Err.decodeErr fmt)
          | none => Except.error (Err.unsupportedExt (pathExt p))

/-- `load`: process the resolved paths in order, stopping at the first
error. -/
def load (fs : FS) : List String → Record → Except Err Record
  | [], r => Except.ok r
  | p :: rest, r =>
      match processPath fs p r with
      | Except.error err => Except.error err
      | Except.ok r' => load fs rest r'

/-- A post-load option (`options.go`): a validation hook, a write to one
file, or a sync to all resolved files.  A validator is a pure check on the
record (`none` = pass). -/
inductive ConfOpt
  | withValidation (f : Record → Option Err)
  | withWritingConfigToFile (path : String)
  | withSyncingConfigToFiles

/-- Apply one option to the handle (resolved paths + record) and the
filesystem.  The sync-all aggregate is folded to a single error value the
way `errors.Join` is returned: `nil` iff no per-path error occurred; the
first collected error stands in for the joined value. -/
def applyOpt (e : Env) (paths : List String) (r : Record) (fs : FS) :
    ConfOpt → Except Err Unit × FS
  | ConfOpt.withValidation f =>
      match f r with
      | none => (Except.ok (), fs)
      | some err => (Except.error err, fs)
  | ConfOpt.withWritingConfigToFile p => writeToFile (e.w p) r p fs
  | ConfOpt.withSyncingConfigToFiles =>
      match writeToFiles e r paths fs with
      | ([], fs') => (Except.ok (), fs')
      | (err :: _, fs') => (Except.error err, fs')

/-- Apply the options in the caller-supplied order; the first failing
option aborts the rest. -/
def applyOpts (e : Env) (paths : List String) (r : Record) :
    List ConfOpt → FS → Except Err Unit × FS
  | [], fs => (Except.ok (), fs)
  | o :: rest, fs =>
      match applyOpt e paths r fs o with
      | (Except.error err, fs') => (Except.error err, fs')
      | (Except.ok _, fs') => applyOpts e paths r rest fs'

/-- `newConfig` / `New`: resolve the paths, load, then apply the options in
order; the first failure at any stage aborts. -/
def newConfig (e : Env) (r : Record) (opts : List ConfOpt) (fs : FS) :
    Except Err Record × FS :=
  match getConfigPaths e r fs with
  | (Except.error err, fs') => (Except.error err, fs')
  | (Except.ok paths, fs') =>
      match load fs' paths r with
      | Except.error err => (Except.error err, fs')
      | Except.ok r' =>
          match applyOpts e paths r' opts fs' with
          | (Except.error err, fs'') => (Except.error err, fs'')
          | (Except.ok _, fs'') => (Except.ok r', fs'')

end Confix

namespace Confix

theorem FS.update_self (fs : FS) (p : String) (v : Option Entry) :
    fs.update p v p = v := by
  simp [FS.update]

theorem FS.update_other (fs : FS) (p q : String) (v : Option Entry)
    (h : q ≠ p) : fs.update p v q = fs q := by
  simp [FS.update, h]

theorem load_append (fs : FS) (l₁ l₂ : List String) (r : Record) :
    load fs (l₁ ++ l₂) r =
      match load fs l₁ r with
      | Except.ok r' => load fs l₂ r'
      | Except.error e => Except.error e := by
  induction l₁ generalizing r with
  | nil => simp [load]
  | cons p rest ih =>
      simp only [List.cons_append, load]
      cases processPath fs p r with
      | error e => rfl
      | ok r' => exact ih r'

theorem fileExists_of_mem_getExistingPaths {fs : FS} {l : List String}
    {p : String} (h : p ∈ getExistingPaths fs l) : fileExists fs p = true := by
  induction l with
  | nil => simp [getExistingPaths] at h
  | cons q rest ih =>
      by_cases hq : fileExists fs q = true
      · simp only [getExistingPaths, hq, if_true, List.mem_cons] at h
        rcases h with h | h
        · exact h ▸ hq
        · exact ih h
      · simp only [getExistingPaths, hq, if_false] at h
        exact ih h

theorem getExistingPaths_eq_filter (fs : FS) (l : List String) :
    getExistingPaths fs l = l.filter (fun p => fileExists fs p) := by
  induction l with
  | nil => rfl
  | cons p rest ih =>
      by_cases h : fileExists fs p = true <;>
        simp [getExistingPaths, List.filter_cons, h, ih]

/-- **C6.** During load, the first hard decode error on any resolved path
aborts the entire load: whatever paths follow, the result is exactly that
error and no later path is processed.  A malformed file in a supported
format yields the wrapped decode error whose message names the failing
format (json, yaml, or toml), and a non-empty well-formed file whose
extension is outside `.json`/`.yaml`/`.yml`/`.toml` aborts the load with
the unsupported-extension error. -/
theorem load_stops_at_first_error (fs : FS) (pre post : List String)
    (p : String) (r r₁ : Record) (hpre : load fs pre r = Except.ok r₁) :
    (∀ e, processPath fs p r₁ = Except.error e →
      load fs (pre ++ p :: post) r = Except.error e) ∧
    (∀ fmt, extFmt (pathExt p) = some fmt →
      fs p = some (Entry.file Content.malformed) →
      load fs (pre ++ p :: post) r = Except.error (Err.decodeErr fmt) ∧
      errMsg (Err.decodeErr fmt) =
        "error while decoding " ++ fmtName fmt ++ " file") ∧
    (∀ l, extFmt (pathExt p) = none →
      fs p = some (Entry.file (Content.fields l)) →
      load fs (pre ++ p :: post) r =
        Except.error (Err.unsupportedExt (pathExt p))) := by
  have hstep : ∀ e, processPath fs p r₁ = Except.error e →
      load fs (pre ++ p :: post) r = Except.error e := by
    intro e he
    rw [load_append, hpre]
    simp only [load, he]
  refine ⟨hstep, ?_, ?_⟩
  · intro fmt hfmt hfile
    refine ⟨hstep _ ?_, rfl⟩
    simp [processPath, hfile, hfmt]
  · intro l hext hfile
    refine hstep _ ?_
    simp [processPath, hfile, hext]

/-- **C9.** A resolved path whose file is absent or zero bytes is skipped
without error and without touching the record; and with no discovery hint
set and no configuration files present, `newConfig` returns success and the
caller's record keeps exactly its pre-call default values (and the
filesystem is untouched). -/
theorem absent_or_empty_path_leaves_record_unchanged :
    (∀ (fs : FS) (p : String) (r : Record), fs p = none →
      processPath fs p r = Except.ok r) ∧
    (∀ (fs : FS) (p : String) (r : Record),
      fs p = some (Entry.file Content.empty) →
      processPath fs p r = Except.ok r) ∧
    (∀ (e : Env) (r : Record), e.configPath = "" → e.configDir = "" →
      newConfig e r [] (fun _ => none) = (Except.ok r, fun _ => none)) := by
  refine ⟨?_, ?_, ?_⟩
  · intro fs p r h
    simp [processPath, h]
  · intro fs p r h
    simp [processPath, h]
  · intro e r hp hd
    simp [newConfig, getConfigPaths, hp, hd, getExistingPaths, fileExists,
      load, applyOpts]

/-- **C10.** In the loader the absent-file check precedes the extension
check: a path that does not exist at load time is skipped without error
even when its extension is unsupported; consequently the
unsupported-extension error can only arise for a path whose entry exists,
opens successfully (not a probe error), and is not an empty regular
file. -/
theorem absent_check_precedes_extension_check :
    (∀ (fs : FS) (p : String) (r : Record), fs p = none →
      extFmt (pathExt p) = none → processPath fs p r = Except.ok r) ∧
    (∀ (fs : FS) (p : String) (r : Record) (s : String),
      processPath fs p r = Except.error (Err.unsupportedExt s) →
      ∃ en, fs p = some en ∧ en ≠ Entry.file Content.empty ∧
        en ≠ Entry.statErr) := by
  constructor
  · intro fs p r h _
    simp [processPath, h]
  · intro fs p r s h
    match hfs : fs p with
    | none => simp [processPath, hfs] at h
    | some Entry.statErr => simp [processPath, hfs] at h
    | some Entry.dir =>
        exact ⟨Entry.dir, rfl, by simp, by simp⟩
    | some (Entry.file Content.empty) => simp [processPath, hfs] at h
    | some (Entry.file (Content.fields l)) =>
        exact ⟨Entry.file (Content.fields l), rfl, by simp, by simp⟩
    | some (Entry.file Content.malformed) =>
        exact ⟨Entry.file Content.malformed, rfl, by simp, by simp⟩

end Confix

namespace Confix

theorem writeToFile_fst_fs_independent (w : WCfg) (r : Record)
    (fPath : String) (fs fs' : FS) :
    (writeToFile w r fPath fs).1 = (writeToFile w r fPath fs').1 := by
  unfold writeToFile
  cases w.tempOk <;> cases hext : extFmt (pathExt fPath) <;>
    cases w.encodeOk <;> cases w.renameOk <;> simp [hext]

theorem writeToFile_snd_preserve (w : WCfg) (r : Record) (fPath : String)
    (fs : FS) (x : String) (hx1 : x ≠ fPath) (hx2 : x ≠ w.tempName) :
    (writeToFile w r fPath fs).2 x = fs x := by
  unfold writeToFile
  cases w.tempOk <;> cases hext : extFmt (pathExt fPath) <;>
    cases w.encodeOk <;> cases w.renameOk <;>
      simp [hext, FS.update, hx1, hx2]

theorem writeToFile_success_target (w : WCfg) (r : Record) (fPath : String)
    (fs : FS) (ht : w.tempOk = true) (he : extFmt (pathExt fPath) ≠ none)
    (hek : w.encodeOk = true) (hr : w.renameOk = true)
    (hn : w.tempName ≠ fPath) :
    (writeToFile w r fPath fs).2 fPath = some (Entry.file (encodeRecord r)) := by
  unfold writeToFile
  cases hext : extFmt (pathExt fPath) with
  | none => exact absurd hext he
  | some fmt =>
      simp [ht, hek, hr, hext, FS.update, Ne.symm hn]

/-- **C7.** `writeToFile`: a temp-file creation failure and an encode
failure (including an unsupported target extension, which makes encoder
selection fail) are returned as errors, while a failure of the final rename
onto the target is swallowed — the call returns success and the target is
left untouched; and on every exit path on which the temp file was created,
the final state no longer contains it. -/
theorem writeToFile_failure_modes_and_cleanup (w : WCfg) (r : Record)
    (fPath : String) (fs : FS) :
    (w.tempOk = false → writeToFile w r fPath fs = (Except.error Err.tempErr, fs)) ∧
    (w.tempOk = true → extFmt (pathExt fPath) = none →
      (writeToFile w r fPath fs).1 =
        Except.error (Err.unsupportedExt (pathExt fPath))) ∧
    (w.tempOk = true → extFmt (pathExt fPath) ≠ none → w.encodeOk = false →
      (writeToFile w r fPath fs).1 = Except.error Err.encodeErr) ∧
    (w.tempOk = true → extFmt (pathExt fPath) ≠ none → w.encodeOk = true →
      w.renameOk = false → w.tempName ≠ fPath →
      (writeToFile w r fPath fs).1 = Except.ok () ∧
      (writeToFile w r fPath fs).2 fPath = fs fPath) ∧
    (w.tempOk = true → w.tempName ≠ fPath →
      (writeToFile w r fPath fs).2 w.tempName = none) := by
  refine ⟨?_, ?_, ?_, ?_, ?_⟩
  · intro ht
    unfold writeToFile
    simp [ht]
  · intro ht hext
    unfold writeToFile
    simp [ht, hext]
  · intro ht hext hek
    unfold writeToFile
    cases he : extFmt (pathExt fPath) with
    | none => exact absurd he hext
    | some fmt => simp [ht, he, hek]
  · intro ht hext hek hr hn
    unfold writeToFile
    cases he : extFmt (pathExt fPath) with
    | none => exact absurd he hext
    | some fmt =>
        constructor
        · simp [ht, he, hek, hr]
        · simp [ht, he, hek, hr, FS.update, Ne.symm hn]
  · intro ht hn
    unfold writeToFile
    cases he : extFmt (pathExt fPath) with
    | none => simp [ht, he, FS.update]
    | some fmt =>
        cases hek : w.encodeOk with
        | false => simp [ht, he, hek, FS.update]
        | true =>
            cases hr : w.renameOk with
            | false => simp [ht, he, hek, hr, FS.update]
            | true => simp [ht, he, hek, hr, FS.update]

end Confix

namespace Confix

theorem errSlot_eq_none {m : Except Err Unit} :
    (match m with
      | Except.error err => some err
      | Except.ok _ => none) = none ↔ m = Except.ok () := by
  cases m with
  | error err => simp
  | ok u => cases u; simp

theorem writeToFiles_foldl_preserve (e : Env) (r : Record) (p : String)
    (ht : (e.w p).tempOk = true) (hext : extFmt (pathExt p) ≠ none)
    (hek : (e.w p).encodeOk = true) (hr : (e.w p).renameOk = true) :
    ∀ (l : List String) (fs : FS), (∀ q ∈ l, (e.w q).tempName ≠ p) →
      fs p = some (Entry.file (encodeRecord r)) →
      (l.foldl (fun acc q => (writeToFile (e.w q) r q acc).2) fs) p =
        some (Entry.file (encodeRecord r))
  | [], fs, _, hfs => hfs
  | q :: rest, fs, hq, hfs => by
      simp only [List.foldl_cons]
      refine writeToFiles_foldl_preserve e r p ht hext hek hr rest _
        (fun x hx => hq x (List.mem_cons_of_mem q hx)) ?_
      by_cases hqp : q = p
      · subst hqp
        exact writeToFile_success_target (e.w q) r q fs ht hext hek hr
          (hq q (List.mem_cons_self q rest))
      · rw [writeToFile_snd_preserve (e.w q) r q fs p
          (fun h => hqp h.symm) (fun h => hq q (List.mem_cons_self q rest) (h ▸ rfl))]
        exact hfs

/-- **C3.** `writeToFiles` (SyncAll) runs one independent write per
resolved path: the aggregate error is empty iff every per-path write
succeeded, every per-path error is collected into the aggregate (none is
dropped), and one path's failure does not prevent a sibling path from being
written — a path whose own write fully succeeds ends up holding the encoded
record in the final filesystem regardless of the other paths' outcomes. -/
theorem writeToFiles_error_aggregation (e : Env) (r : Record)
    (paths : List String) (fs : FS) :
    ((writeToFiles e r paths fs).1 = [] ↔
      ∀ p ∈ paths, (writeToFile (e.w p) r p fs).1 = Except.ok ()) ∧
    (∀ p ∈ paths, ∀ err,
      (writeToFile (e.w p) r p fs).1 = Except.error err →
      err ∈ (writeToFiles e r paths fs).1) ∧
    (∀ p ∈ paths, (e.w p).tempOk = true → extFmt (pathExt p) ≠ none →
      (e.w p).encodeOk = true → (e.w p).renameOk = true →
      (∀ q ∈ paths, (e.w q).tempName ≠ p) →
      (writeToFiles e r paths fs).2 p = some (Entry.file (encodeRecord r))) := by
  refine ⟨?_, ?_, ?_⟩
  · rw [writeToFiles]
    rw [List.filterMap_eq_nil_iff]
    constructor
    · intro h p hp
      exact errSlot_eq_none.mp (h p hp)
    · intro h p hp
      exact errSlot_eq_none.mpr (h p hp)
  · intro p hp err herr
    rw [writeToFiles]
    exact List.mem_filterMap.mpr ⟨p, hp, by rw [herr]⟩
  · intro p hp ht hext hek hr hq
    obtain ⟨s, t, rfl⟩ := List.append_of_mem hp
    rw [writeToFiles]
    simp only [List.foldl_append, List.foldl_cons]
    refine writeToFiles_foldl_preserve e r p ht hext hek hr t _
      (fun x hx => hq x (by simp [hx])) ?_
    exact writeToFile_success_target (e.w p) r p _ ht hext hek hr
      (hq p (by simp))

end Confix

namespace Confix

theorem applyOpts_append (e : Env) (ps : List String) (r : Record)
    (l₁ l₂ : List ConfOpt) (fs : FS) :
    applyOpts e ps r (l₁ ++ l₂) fs =
      match applyOpts e ps r l₁ fs with
      | (Except.error err, fs') => (Except.error err, fs')
      | (Except.ok _, fs') => applyOpts e ps r l₂ fs' := by
  induction l₁ generalizing fs with
  | nil => simp [applyOpts]
  | cons o rest ih =>
      simp only [List.cons_append, applyOpts]
      cases h : applyOpt e ps r fs o with
      | mk res fs' =>
          cases res with
          | error err => rfl
          | ok u => exact ih fs'

/-- **C2.** `newConfig` applies the caller-supplied options in exactly the
supplied order after resolve and load; the first option whose application
fails aborts all remaining options, the failing option's error is returned,
and the final filesystem is the one from just before the failing option —
so a write-to-file option listed after a failing validation option is never
executed and its target file is never created or modified. -/
theorem newConfig_first_option_failure_aborts (e : Env) (r r₀ : Record)
    (fs fs₀ fs₁ : FS) (ps : List String) (pre post : List ConfOpt)
    (v : Record → Option Err) (err : Err)
    (hres : getConfigPaths e r fs = (Except.ok ps, fs₀))
    (hload : load fs₀ ps r = Except.ok r₀)
    (hpre : applyOpts e ps r₀ pre fs₀ = (Except.ok (), fs₁))
    (hv : v r₀ = some err) :
    newConfig e r (pre ++ ConfOpt.withValidation v :: post) fs =
      (Except.error err, fs₁) := by
  rw [newConfig, hres]
  simp only
  rw [hload]
  simp only
  rw [applyOpts_append, hpre]
  simp [applyOpts, applyOpt, hv]

/-- The all-success write oracle used by the concrete scenarios. -/
def wAll : String → WCfg := fun _ => ⟨true, "/tmp/config_tmp", true, true⟩

/-- The empty filesystem. -/
def fsEmpty : FS := fun _ => none

/-- Directory-hint scenario filesystem: `D` holds `config.json` assigning
`a = "x"` and `config.yaml` assigning `a = "y"`. -/
def fsDirScenario : FS := fun p =>
  if p = "D/config.json" then some (Entry.file (Content.fields [("a", "x")]))
  else if p = "D/config.yaml" then
    some (Entry.file (Content.fields [("a", "y")]))
  else none

/-- Environment with the directory hint `D` set. -/
def envDirScenario : Env := ⟨"", "D", "/usr/bin/app", true, wAll⟩

/-- **C8.** With a directory hint `d`, resolution probes
`d/config.json`, `d/config.toml`, `d/config.yml`, `d/config.yaml` in that
order and keeps the existing regular files in that order; in the scenario
where `D` holds `config.json` with `a = "x"` and `config.yaml` with
`a = "y"`, the resolved list is `[D/config.json, D/config.yaml]` and the
final record's field `a` equals `"y"` (yaml decoded after json, starting
from the default `a = ""`). -/
theorem directory_hint_order_and_override :
    (∀ (e : Env) (r : Record) (fs : FS), e.configPath = "" →
      e.configDir ≠ "" →
      getConfigPaths e r fs =
        (Except.ok (([pathJoin e.configDir "config.json",
                      pathJoin e.configDir "config.toml",
                      pathJoin e.configDir "config.yml",
                      pathJoin e.configDir "config.yaml"]).filter
            (fun p => fileExists fs p)), fs)) ∧
    (getConfigPaths envDirScenario [("a", "")] fsDirScenario).1 =
      Except.ok ["D/config.json", "D/config.yaml"] ∧
    (newConfig envDirScenario [("a", "")] [] fsDirScenario).1 =
      Except.ok [("a", "y")] ∧
    getField [("a", "y")] "a" = "y" := by
  refine ⟨?_, rfl, rfl, rfl⟩
  intro e r fs hp hd
  rw [getConfigPaths]
  simp [hp, hd, getExistingPaths_eq_filter, jsonConfigFileName,
    tomlConfigFileName, ymlConfigFileName, yamlConfigFileName]

/-- Filesystem whose probe of `D/config.json` fails with a filesystem error
other than not-found. -/
def fsProbeErr : FS := fun p =>
  if p = "D/config.json" then some Entry.statErr else none

/-- Environment with the directory hint `D` set, for the probe-error
scenario. -/
def envDirProbe : Env := ⟨"", "D", "/exe", true, wAll⟩

/-- **C4 counterexample.** A filesystem error other than not-found while
probing `D/config.json` is not propagated: resolution succeeds with the
path silently dropped, contradicting the claim that such errors are
returned as fatal resolution errors. -/
theorem probe_error_not_propagated :
    fsProbeErr "D/config.json" = some Entry.statErr ∧
    getConfigPaths envDirProbe [] fsProbeErr = (Except.ok [], fsProbeErr) :=
  ⟨rfl, rfl⟩

/-- **C4 amended.** Filesystem errors other than not-found while probing a
candidate path are swallowed: `fileExists` reports the path as not
existing, the path is omitted from the resolved list, and (when no explicit
file is configured) resolution returns success rather than a fatal
error. -/
theorem probe_errors_swallowed (fs : FS) (p : String)
    (h : fs p = some Entry.statErr) :
    fileExists fs p = false ∧
    (∀ l, p ∉ getExistingPaths fs l) ∧
    (∀ (e : Env) (r : Record), e.configPath = "" →
      ∃ ps, getConfigPaths e r fs = (Except.ok ps, fs)) := by
  refine ⟨by simp [fileExists, h], ?_, ?_⟩
  · intro l hmem
    have hfe := fileExists_of_mem_getExistingPaths hmem
    rw [fileExists, h] at hfe
    cases hfe
  · intro e r hp
    rw [getConfigPaths]
    by_cases hd : e.configDir = "" <;> simp [hp, hd]

/-- Environment with the explicit-file hint set to the missing `c.json`;
creation and the write-back both succeed. -/
def envExplicitMissing : Env :=
  ⟨"c.json", "", "/exe", true, fun _ => ⟨true, "/tmp/config_tmp.json", true, true⟩⟩

/-- A seed record for the explicit-file scenario. -/
def recSeed : Record := [("a", "seed")]

/-- **C1 evidence.** With the explicit-file hint set to a path that does
not exist, resolution creates the file and encodes the pre-load record into
it, but — because `setConfigPathForOneFile` assigns `c.paths` only in the
file-exists branch — the resolved path list is `[]`, not `[p]` as the claim
states. -/
theorem explicit_missing_file_resolves_to_empty_list :
    fileExists fsEmpty "c.json" = false ∧
    (getConfigPaths envExplicitMissing recSeed fsEmpty).1 = Except.ok [] ∧
    (getConfigPaths envExplicitMissing recSeed fsEmpty).1 ≠
      Except.ok ["c.json"] ∧
    (getConfigPaths envExplicitMissing recSeed fsEmpty).2 "c.json" =
      some (Entry.file (encodeRecord recSeed)) := by
  refine ⟨rfl, rfl, ?_, rfl⟩
  intro h
  exact absurd (Except.ok.inj h) (by simp)

/-- Environment with neither discovery variable set and the executable at
`/usr/bin/app`. -/
def envDefaultExe : Env := ⟨"", "", "/usr/bin/app", true, wAll⟩

/-- Filesystem holding a `config.toml` in the directory containing the
executable `/usr/bin/app`. -/
def fsExeDir : FS := fun p =>
  if p = "/usr/bin/config.toml" then
    some (Entry.file (Content.fields [("a", "z")]))
  else none

/-- Filesystem holding a regular file at the impossible path obtained by
joining the executable's own path with `config.toml`. -/
def fsExeJoined : FS := fun p =>
  if p = "/usr/bin/app/config.toml" then
    some (Entry.file (Content.fields [("a", "z")]))
  else none

/-- **C5 evidence.** With no discovery hint, the code joins the default
basenames onto `currentDir = os.Executable()` — the executable's own path,
not its directory: a `config.toml` in the executable's directory is not
found, while a (really impossible) regular file at
`/usr/bin/app/config.toml` would be. -/
theorem default_search_probes_executable_path_itself :
    fileExists fsExeDir "/usr/bin/config.toml" = true ∧
    (getConfigPaths envDefaultExe [] fsExeDir).1 = Except.ok [] ∧
    pathJoin "/usr/bin/app" tomlConfigFileName = "/usr/bin/app/config.toml" ∧
    (getConfigPaths envDefaultExe [] fsExeJoined).1 =
      Except.ok ["/usr/bin/app/config.toml"] :=
  ⟨rfl, rfl, rfl, rfl⟩

end Confix

namespace Confix

/-- A filesystem holding a malformed `c.json` (and nothing else). -/
def fsMalformed : FS := fun p =>
  if p = "c.json" then some (Entry.file Content.malformed) else none

theorem load_stops_at_first_error_witness :
    load fsMalformed ["c.json", "d.yaml"] recSeed =
      Except.error (Err.decodeErr Fmt.json) ∧
    errMsg (Err.decodeErr Fmt.json) = "error while decoding json file" :=
  (load_stops_at_first_error fsMalformed [] ["d.yaml"] "c.json" recSeed
    recSeed rfl).2.1 Fmt.json rfl rfl

theorem absent_or_empty_path_witness :
    processPath fsEmpty "missing.json" recSeed = Except.ok recSeed ∧
    newConfig envDefaultExe recSeed [] fsEmpty = (Except.ok recSeed, fsEmpty) :=
  ⟨absent_or_empty_path_leaves_record_unchanged.1 fsEmpty "missing.json"
      recSeed rfl,
   absent_or_empty_path_leaves_record_unchanged.2.2 envDefaultExe recSeed
      rfl rfl⟩

/-- A filesystem holding a non-empty regular file with the unsupported
extension `.txt`. -/
def fsTxt : FS := fun p =>
  if p = "notes.txt" then some (Entry.file (Content.fields [("a", "b")]))
  else none

theorem absent_check_witness :
    processPath fsEmpty "notes.txt" recSeed = Except.ok recSeed ∧
    (∃ en, fsTxt "notes.txt" = some en ∧ en ≠ Entry.file Content.empty ∧
      en ≠ Entry.statErr) :=
  ⟨absent_check_precedes_extension_check.1 fsEmpty "notes.txt" recSeed
      rfl rfl,
   absent_check_precedes_extension_check.2 fsTxt "notes.txt" recSeed
      ".txt" rfl⟩

/-- A write oracle whose rename fails (all earlier steps succeed). -/
def wRenameFail : WCfg := ⟨true, "/tmp/cfg_tmp.json", true, false⟩

/-- A write oracle whose temp-file creation fails. -/
def wTempFail : WCfg := ⟨false, "/tmp/cfg_tmp.json", true, true⟩

theorem writeToFile_failure_modes_witness :
    (writeToFile wRenameFail recSeed "a.json" fsEmpty).1 = Except.ok () ∧
    (writeToFile wRenameFail recSeed "a.json" fsEmpty).2 "a.json" =
      fsEmpty "a.json" ∧
    (writeToFile wRenameFail recSeed "a.json" fsEmpty).2
      "/tmp/cfg_tmp.json" = none ∧
    writeToFile wTempFail recSeed "a.json" fsEmpty =
      (Except.error Err.tempErr, fsEmpty) :=
  ⟨((writeToFile_failure_modes_and_cleanup wRenameFail recSeed "a.json"
      fsEmpty).2.2.2.1 rfl (by decide) rfl rfl (by decide)).1,
   ((writeToFile_failure_modes_and_cleanup wRenameFail recSeed "a.json"
      fsEmpty).2.2.2.1 rfl (by decide) rfl rfl (by decide)).2,
   (writeToFile_failure_modes_and_cleanup wRenameFail recSeed "a.json"
      fsEmpty).2.2.2.2 rfl (by decide),
   (writeToFile_failure_modes_and_cleanup wTempFail recSeed "a.json"
      fsEmpty).1 rfl⟩

/-- Environment for the sync-all witness: every target gets its own temp
name, and all oracles succeed (the failure below comes from the unsupported
extension of the second target). -/
def envSync : Env :=
  ⟨"", "", "/exe", true, fun p => ⟨true, "/tmp/t_" ++ p, true, true⟩⟩

theorem writeToFiles_error_aggregation_witness :
    Err.unsupportedExt ".txt" ∈
      (writeToFiles envSync recSeed ["a.json", "b.txt"] fsEmpty).1 ∧
    (writeToFiles envSync recSeed ["a.json", "b.txt"] fsEmpty).2 "a.json" =
      some (Entry.file (encodeRecord recSeed)) ∧
    (writeToFiles envSync recSeed ["a.json", "b.txt"] fsEmpty).1 ≠ [] :=
  ⟨(writeToFiles_error_aggregation envSync recSeed ["a.json", "b.txt"]
      fsEmpty).2.1 "b.txt" (by decide) (Err.unsupportedExt ".txt") rfl,
   (writeToFiles_error_aggregation envSync recSeed ["a.json", "b.txt"]
      fsEmpty).2.2 "a.json" (by decide) rfl (by decide) rfl rfl (by decide),
   fun h =>
     Except.noConfusion
       (((writeToFiles_error_aggregation envSync recSeed ["a.json", "b.txt"]
          fsEmpty).1.mp h) "b.txt" (by decide))⟩

/-- A validator that rejects every record. -/
def vFail : Record → Option Err := fun _ => some (Err.userErr "invalid")

theorem newConfig_first_option_failure_witness :
    newConfig envDefaultExe recSeed
      [ConfOpt.withValidation vFail,
       ConfOpt.withWritingConfigToFile "out.json"] fsEmpty =
      (Except.error (Err.userErr "invalid"), fsEmpty) :=
  newConfig_first_option_failure_aborts envDefaultExe recSeed recSeed
    fsEmpty fsEmpty fsEmpty [] []
    [ConfOpt.withWritingConfigToFile "out.json"] vFail
    (Err.userErr "invalid") rfl rfl rfl rfl

theorem directory_hint_witness :
    getConfigPaths envDirScenario [("a", "")] fsDirScenario =
      (Except.ok ((["D/config.json", "D/config.toml", "D/config.yml",
        "D/config.yaml"]).filter (fun p => fileExists fsDirScenario p)),
       fsDirScenario) :=
  directory_hint_order_and_override.1 envDirScenario [("a", "")]
    fsDirScenario rfl (by decide)

theorem probe_errors_swallowed_witness :
    fileExists fsProbeErr "D/config.json" = false ∧
    "D/config.json" ∉ getExistingPaths fsProbeErr ["D/config.json"] ∧
    ∃ ps, getConfigPaths envDirProbe [] fsProbeErr =
      (Except.ok ps, fsProbeErr) :=
  ⟨(probe_errors_swallowed fsProbeErr "D/config.json" rfl).1,
   (probe_errors_swallowed fsProbeErr "D/config.json" rfl).2.1
      ["D/config.json"],
   (probe_errors_swallowed fsProbeErr "D/config.json" rfl).2.2
      envDirProbe [] rfl⟩

end Confix
